import Mathlib

/-!
# Billing-manager: reconciliation & anomaly-detection core, shallowly embedded

This file embeds the deduplicating store step of `POST /api/costs/collect`
and the per-service body of `GET /api/costs/anomalies` (both in
`backend/routes/costs.js`, served through the schedules/costs router file)
into Lean, and proves the spec's testable properties about them.

Modelling conventions:
* Firestore collections are association lists `List (String × β)` keyed by
  document id; `doc.set` replaces in place or appends, `doc.update` merges
  fields into an existing document.
* JS numbers carrying money are modelled as `ℚ` (exact arithmetic).
* Wall-clock timestamps (`new Date().toISOString()`) are opaque strings,
  passed in as an explicit `now` parameter.
* ISO-8601 timestamp strings compare chronologically as strings, so the
  detector's `new Date(a) - new Date(b)` comparator is modelled as string `≤`.
-/

namespace BillingManager

/-- One resource line of a cost entry, as emitted by the collector adapters
(`resourceId`, `name`, `type`, `cost`, `tags`).  `resourceId` is optional:
the code reads it with the JS-falsy fallback `resource.resourceId || resource.name`. -/
structure ResourceCost where
  resourceId : Option String
  name : String
  rtype : String
  cost : ℚ
  tags : List (String × String)
deriving Repr, DecidableEq

/-- A normalized cost entry as returned by a collector adapter:
`{serviceId, timestamp, totalCost, currency, resources, metadata}`. -/
structure CostEntry where
  serviceId : String
  timestamp : String
  totalCost : ℚ
  currency : String
  resources : List ResourceCost
  metadata : List (String × String)
deriving Repr, DecidableEq

/-- A persisted ledger document: the cost-entry fields spread flat into the
document, plus `createdAt` / `updatedAt`.  (The spread `{...cost}` is modelled
as the `entry` component.) -/
structure LedgerRecord where
  entry : CostEntry
  createdAt : String
  updatedAt : String
deriving Repr, DecidableEq

/-- A Firestore-like keyed collection: at most one document per id is the
invariant to be proved, so the raw representation is a plain association list. -/
abbrev Ledger : Type := List (String × LedgerRecord)

/-- Document lookup by id (first match). -/
def findDoc : Ledger → String → Option LedgerRecord
  | [], _ => none
  | (k, v) :: rest, d => if k = d then some v else findDoc rest d

/-- `docRef.set(data)`: replace the document if the id is present, else append it. -/
def setDoc : Ledger → String → LedgerRecord → Ledger
  | [], d, v => [(d, v)]
  | (k, w) :: rest, d, v => if k = d then (k, v) :: rest else (k, w) :: setDoc rest d v

/-- `docRef.update(fields)`: merge into an existing document.  A Firestore
`update` on a missing document fails the whole batch commit; in the collect
handler updates are only issued for ids that passed the existence check, so
the missing-id case is unreachable there and modelled as a no-op. -/
def updateDoc (f : LedgerRecord → LedgerRecord) : Ledger → String → Ledger
  | [], _ => []
  | (k, w) :: rest, d => if k = d then (k, f w) :: rest else (k, w) :: updateDoc f rest d

/-- The document ids of a ledger, in storage order. -/
def keysOf (L : Ledger) : List String := L.map Prod.fst

/-- One queued write of the handler's `firestore.batch()`: either
`batch.set(docRef, {...cost, createdAt, updatedAt})` or
`batch.update(docRef, {...cost, updatedAt})`. -/
inductive BatchWrite where
  | setW (d : String) (c : CostEntry) (now : String)
  | updW (d : String) (c : CostEntry) (now : String)
deriving Repr, DecidableEq

/-- Applying one queued write to the ledger.  A `set` writes all fields
including both timestamps; an `update` replaces the entry fields and
`updatedAt` but leaves `createdAt` untouched. -/
def applyWrite : Ledger → BatchWrite → Ledger
  | L, .setW d c now => setDoc L d ⟨c, now, now⟩
  | L, .updW d c now => updateDoc (fun old => ⟨c, old.createdAt, now⟩) L d

/-- `batch.commit()`: apply the queued writes in order. -/
def commit (L : Ledger) (ws : List BatchWrite) : Ledger := ws.foldl applyWrite L

/-- `cost.timestamp.split('T')[0]` — the calendar-day part of the timestamp,
i.e. the prefix of the string before its first `'T'` (the whole string when no
`'T'` occurs). -/
def dateOf (ts : String) : String := String.mk (ts.data.takeWhile (fun ch => ch != 'T'))

/-- The composite document id `${serviceId}_${date}`. -/
def docIdOf (serviceId : String) (c : CostEntry) : String :=
  serviceId ++ "_" ++ dateOf c.timestamp

/-- The `existingDocIds` set: ids of the batch whose documents are already
present, obtained by the single batched `firestore.getAll` round trip. -/
def existingIds (L : Ledger) (serviceId : String) (costs : List CostEntry) : List String :=
  (costs.map (docIdOf serviceId)).filter (fun d => (findDoc L d).isSome)

/-- The write queued for one cost entry: update when its id is in
`existingDocIds`, set otherwise. -/
def writeFor (existing : List String) (serviceId now : String) (c : CostEntry) : BatchWrite :=
  let docId := docIdOf serviceId c
  if docId ∈ existing then .updW docId c now else .setW docId c now

/-- Result of the deduplicating store step: the ledger after `batch.commit()`
plus the `newRecords` / `updatedRecords` counters. -/
structure ReconcileResult where
  ledger : Ledger
  newRecords : Nat
  updatedRecords : Nat
deriving Repr, DecidableEq

/-- `Reconcile(serviceId, batch)` — the deduplicating store step of
`POST /api/costs/collect`: batched existence check, then one queued write per
entry (update for existing ids, set for fresh ones), then commit.  The
counters are incremented per loop iteration, i.e. they count batch entries,
not distinct ids. -/
def reconcile (L : Ledger) (serviceId : String) (costs : List CostEntry) (now : String) :
    ReconcileResult :=
  let existing := existingIds L serviceId costs
  { ledger := commit L (costs.map (writeFor existing serviceId now))
    newRecords := costs.countP (fun c => !decide (docIdOf serviceId c ∈ existing))
    updatedRecords := costs.countP (fun c => decide (docIdOf serviceId c ∈ existing)) }

/-! ## Basic lemmas about the keyed store -/

theorem findDoc_setDoc_self (L : Ledger) (d : String) (v : LedgerRecord) :
    findDoc (setDoc L d v) d = some v := by
  induction L with
  | nil => simp [setDoc, findDoc]
  | cons p rest ih =>
      obtain ⟨k, w⟩ := p
      by_cases h : k = d
      · subst h; simp [setDoc, findDoc]
      · simp [setDoc, findDoc, h, ih]

theorem findDoc_setDoc_ne (L : Ledger) (d e : String) (v : LedgerRecord) (h : e ≠ d) :
    findDoc (setDoc L d v) e = findDoc L e := by
  induction L with
  | nil =>
      simp only [setDoc, findDoc]
      rw [if_neg (fun hh => h hh.symm)]
  | cons p rest ih =>
      obtain ⟨k, w⟩ := p
      by_cases hk : k = d
      · subst hk
        simp only [setDoc, if_pos rfl, findDoc]
        rw [if_neg (fun hh => h hh.symm), if_neg (fun hh => h hh.symm)]
      · simp [setDoc, findDoc, hk, ih]

theorem findDoc_updateDoc_self (f : LedgerRecord → LedgerRecord) (L : Ledger) (d : String) :
    findDoc (updateDoc f L d) d = (findDoc L d).map f := by
  induction L with
  | nil => simp [updateDoc, findDoc]
  | cons p rest ih =>
      obtain ⟨k, w⟩ := p
      by_cases h : k = d
      · subst h; simp [updateDoc, findDoc]
      · simp [updateDoc, findDoc, h, ih]

theorem findDoc_updateDoc_ne (f : LedgerRecord → LedgerRecord) (L : Ledger) (d e : String)
    (h : e ≠ d) :
    findDoc (updateDoc f L d) e = findDoc L e := by
  induction L with
  | nil => simp [updateDoc]
  | cons p rest ih =>
      obtain ⟨k, w⟩ := p
      by_cases hk : k = d
      · subst hk
        simp only [updateDoc, if_pos rfl, findDoc]
        rw [if_neg (fun hh => h hh.symm), if_neg (fun hh => h hh.symm)]
      · simp [updateDoc, findDoc, hk, ih]

theorem findDoc_eq_none_of_not_mem (L : Ledger) (d : String) (h : d ∉ keysOf L) :
    findDoc L d = none := by
  induction L with
  | nil => rfl
  | cons p rest ih =>
      obtain ⟨k, w⟩ := p
      rw [show keysOf ((k, w) :: rest) = k :: keysOf rest from rfl] at h
      simp only [List.mem_cons, not_or] at h
      show (if k = d then some w else findDoc rest d) = none
      rw [if_neg (fun hh : k = d => h.1 hh.symm)]
      exact ih h.2

theorem keysOf_updateDoc (f : LedgerRecord → LedgerRecord) (L : Ledger) (d : String) :
    keysOf (updateDoc f L d) = keysOf L := by
  induction L with
  | nil => rfl
  | cons p rest ih =>
      obtain ⟨k, w⟩ := p
      by_cases h : k = d
      · simp [updateDoc, keysOf, h]
      · simp only [updateDoc, if_neg h, keysOf, List.map_cons]
        rw [show List.map Prod.fst (updateDoc f rest d) = keysOf (updateDoc f rest d) from rfl, ih]
        rfl

theorem keysOf_setDoc (L : Ledger) (d : String) (v : LedgerRecord) :
    keysOf (setDoc L d v) = if d ∈ keysOf L then keysOf L else keysOf L ++ [d] := by
  induction L with
  | nil => simp [setDoc, keysOf]
  | cons p rest ih =>
      obtain ⟨k, w⟩ := p
      by_cases h : k = d
      · subst h; simp [setDoc, keysOf]
      · have hne : d ≠ k := fun hh => h hh.symm
        have hset : setDoc ((k, w) :: rest) d v = (k, w) :: setDoc rest d v := by
          simp [setDoc, h]
        rw [hset,
          show keysOf ((k, w) :: setDoc rest d v) = k :: keysOf (setDoc rest d v) from rfl,
          show keysOf ((k, w) :: rest) = k :: keysOf rest from rfl, ih]
        by_cases hm : d ∈ keysOf rest
        · rw [if_pos hm, if_pos (by simp [List.mem_cons, hm])]
        · rw [if_neg hm, if_neg (by simp [List.mem_cons, hm, hne])]
          rfl

theorem nodup_keys_setDoc (L : Ledger) (d : String) (v : LedgerRecord)
    (h : (keysOf L).Nodup) : (keysOf (setDoc L d v)).Nodup := by
  rw [keysOf_setDoc]
  by_cases hm : d ∈ keysOf L
  · simpa [hm] using h
  · rw [if_neg hm]
    refine List.Nodup.append h (List.nodup_singleton d) ?_
    intro x hx hxd
    simp only [List.mem_singleton] at hxd
    exact hm (hxd ▸ hx)

theorem nodup_keys_applyWrite (L : Ledger) (w : BatchWrite)
    (h : (keysOf L).Nodup) : (keysOf (applyWrite L w)).Nodup := by
  cases w with
  | setW d c now => exact nodup_keys_setDoc L d ⟨c, now, now⟩ h
  | updW d c now => simpa [applyWrite, keysOf_updateDoc] using h

theorem nodup_keys_commit (ws : List BatchWrite) :
    ∀ L : Ledger, (keysOf L).Nodup → (keysOf (commit L ws)).Nodup := by
  induction ws with
  | nil => intro L h; exact h
  | cons w ws ih =>
      intro L h
      exact ih (applyWrite L w) (nodup_keys_applyWrite L w h)

theorem nodup_keys_reconcile (L : Ledger) (serviceId : String) (costs : List CostEntry)
    (now : String) (h : (keysOf L).Nodup) :
    (keysOf (reconcile L serviceId costs now).ledger).Nodup :=
  nodup_keys_commit _ L h

/-- The last entry of the batch whose derived composite id is `d`: within a
batch, a later entry for the same id silently overwrites an earlier one at
write time, so this entry determines the final document content. -/
def lastFor (serviceId d : String) : List CostEntry → Option CostEntry
  | [] => none
  | c :: cs =>
      match lastFor serviceId d cs with
      | some c' => some c'
      | none => if docIdOf serviceId c = d then some c else none

theorem mem_map_docId_of_lastFor (serviceId d : String) (costs : List CostEntry)
    (c : CostEntry) (h : lastFor serviceId d costs = some c) :
    d ∈ costs.map (docIdOf serviceId) := by
  induction costs with
  | nil => simp [lastFor] at h
  | cons c0 cs ih =>
      simp only [lastFor] at h
      cases hcs : lastFor serviceId d cs with
      | some c' => simp [List.map_cons]; right; simpa using ih (by rw [hcs]; rw [hcs] at h; exact h)
      | none =>
          rw [hcs] at h
          by_cases hd : docIdOf serviceId c0 = d
          · simp [List.map_cons, hd]
          · simp [hd] at h

theorem lastFor_isSome_of_mem (serviceId : String) (costs : List CostEntry)
    (c : CostEntry) (hc : c ∈ costs) :
    (lastFor serviceId (docIdOf serviceId c) costs).isSome := by
  induction costs with
  | nil => simp at hc
  | cons c0 cs ih =>
      simp only [lastFor]
      cases hcs : lastFor serviceId (docIdOf serviceId c) cs with
      | some c' => simp
      | none =>
          rcases List.mem_cons.mp hc with h0 | hmem
          · subst h0; simp
          · have := ih hmem; rw [hcs] at this; simp at this

/-- Last-write-wins characterization of a `batch.commit()` whose writes were
generated by the collect loop from snapshot `S`: the final document at id `d`
carries the entry fields of the last batch entry for `d` and `updatedAt = now`;
`createdAt` is the stored one when `d` was classified existing (update path)
and `now` when it was classified fresh (set path). -/
theorem findDoc_commit (serviceId now : String) (S : List String) (d : String) :
    ∀ (costs : List CostEntry) (L : Ledger),
    findDoc (commit L (costs.map (writeFor S serviceId now))) d =
      match lastFor serviceId d costs with
      | none => findDoc L d
      | some c =>
          if d ∈ S then (findDoc L d).map (fun old => ⟨c, old.createdAt, now⟩)
          else some ⟨c, now, now⟩ := by
  intro costs
  induction costs with
  | nil => intro L; simp [commit, lastFor]
  | cons c0 cs ih =>
      intro L
      have hstep : commit L ((c0 :: cs).map (writeFor S serviceId now)) =
          commit (applyWrite L (writeFor S serviceId now c0)) (cs.map (writeFor S serviceId now)) := by
        simp [commit]
      rw [hstep, ih]
      by_cases hd : docIdOf serviceId c0 = d
      · -- the head write targets d
        subst hd
        by_cases hS : docIdOf serviceId c0 ∈ S
        · -- update path: createdAt is preserved through the head write
          have hfind : findDoc (applyWrite L (writeFor S serviceId now c0)) (docIdOf serviceId c0) =
              (findDoc L (docIdOf serviceId c0)).map
                (fun old => ⟨c0, old.createdAt, now⟩) := by
            simp [writeFor, hS, applyWrite, findDoc_updateDoc_self]
          cases hcs : lastFor serviceId (docIdOf serviceId c0) cs with
          | none => simp [lastFor, hcs, hS, hfind]
          | some c' =>
              simp only [lastFor, hcs, if_pos hS, hfind, Option.map_map]
              cases findDoc L (docIdOf serviceId c0) <;> rfl
        · -- set path: the head write installs ⟨c0, now, now⟩
          have hfind : findDoc (applyWrite L (writeFor S serviceId now c0)) (docIdOf serviceId c0) =
              some ⟨c0, now, now⟩ := by
            simp [writeFor, hS, applyWrite, findDoc_setDoc_self]
          cases hcs : lastFor serviceId (docIdOf serviceId c0) cs with
          | none => simp [lastFor, hcs, hS, hfind]
          | some c' => simp [lastFor, hcs, hS]
      · -- the head write targets a different id: findDoc at d is unchanged
        have hfind : findDoc (applyWrite L (writeFor S serviceId now c0)) d = findDoc L d := by
          by_cases hS : docIdOf serviceId c0 ∈ S
          · simp [writeFor, hS, applyWrite,
              findDoc_updateDoc_ne _ _ _ _ (fun hh => hd hh.symm)]
          · simp [writeFor, hS, applyWrite,
              findDoc_setDoc_ne _ _ _ _ (fun hh => hd hh.symm)]
        have hlast : lastFor serviceId d (c0 :: cs) = lastFor serviceId d cs := by
          simp only [lastFor]
          cases lastFor serviceId d cs with
          | some c' => rfl
          | none => simp [hd]
        rw [hlast, hfind]

theorem ledger_ext (L : Ledger) : ∀ M : Ledger, keysOf M = keysOf L → (keysOf L).Nodup →
    (∀ d, findDoc M d = findDoc L d) → M = L := by
  induction L with
  | nil =>
      intro M hkeys _ _
      cases M with
      | nil => rfl
      | cons p M2 => simp [keysOf] at hkeys
  | cons p rest ih =>
      obtain ⟨k, v⟩ := p
      intro M hkeys hnodup hfind
      cases M with
      | nil => simp [keysOf] at hkeys
      | cons q M2 =>
          obtain ⟨k2, v2⟩ := q
          rw [show keysOf ((k2, v2) :: M2) = k2 :: keysOf M2 from rfl,
              show keysOf ((k, v) :: rest) = k :: keysOf rest from rfl] at hkeys
          have hk : k2 = k := (List.cons.inj hkeys).1
          have hkeys2 : keysOf M2 = keysOf rest := (List.cons.inj hkeys).2
          subst hk
          rw [show keysOf ((k2, v) :: rest) = k2 :: keysOf rest from rfl] at hnodup
          have hnotin : k2 ∉ keysOf rest := (List.nodup_cons.mp hnodup).1
          have hv : v2 = v := by
            have := hfind k2
            simpa [findDoc] using this
          have htail : M2 = rest := by
            refine ih M2 hkeys2 (List.nodup_cons.mp hnodup).2 ?_
            intro d
            by_cases hd : d = k2
            · subst hd
              rw [findDoc_eq_none_of_not_mem M2 d (hkeys2 ▸ hnotin),
                  findDoc_eq_none_of_not_mem rest d hnotin]
            · have := hfind d
              simpa [findDoc, if_neg (fun hh : k2 = d => hd hh.symm)] using this
          rw [hv, htail]

/-- Value of any document after one `Reconcile` call: untouched ids keep their
document; an id covered by the batch gets the entry fields of the last batch
entry for it, `updatedAt = now`, and `createdAt` preserved from the stored
document when one existed (update path) or set to `now` (insert path). -/
theorem findDoc_reconcile (L : Ledger) (serviceId : String) (costs : List CostEntry)
    (now d : String) :
    findDoc (reconcile L serviceId costs now).ledger d =
      match lastFor serviceId d costs with
      | none => findDoc L d
      | some c =>
          match findDoc L d with
          | some old => some ⟨c, old.createdAt, now⟩
          | none => some ⟨c, now, now⟩ := by
  show findDoc (commit L (costs.map (writeFor (existingIds L serviceId costs) serviceId now))) d = _
  rw [findDoc_commit]
  cases hlast : lastFor serviceId d costs with
  | none => rfl
  | some c =>
      have hdmem : d ∈ costs.map (docIdOf serviceId) := mem_map_docId_of_lastFor _ _ _ _ hlast
      cases hfd : findDoc L d with
      | some old =>
          have hS : d ∈ existingIds L serviceId costs := by
            simp [existingIds, List.mem_filter, hdmem, hfd]
          simp [hS, hfd]
      | none =>
          have hS : d ∉ existingIds L serviceId costs := by
            simp [existingIds, List.mem_filter, hfd]
          simp [hS]

/-- After a `Reconcile` call, every id derived from the batch has a document. -/
theorem findDoc_reconcile_isSome (L : Ledger) (serviceId : String) (costs : List CostEntry)
    (now : String) (c : CostEntry) (hc : c ∈ costs) :
    (findDoc (reconcile L serviceId costs now).ledger (docIdOf serviceId c)).isSome := by
  rw [findDoc_reconcile]
  cases hlast : lastFor serviceId (docIdOf serviceId c) costs with
  | none =>
      have h := lastFor_isSome_of_mem serviceId costs c hc
      rw [hlast] at h; simp at h
  | some c2 => cases findDoc L (docIdOf serviceId c) <;> simp

/-- On a second run with the same batch, the batched existence check finds
every derived id already present. -/
theorem existingIds_after_reconcile (L : Ledger) (serviceId : String)
    (costs : List CostEntry) (now : String) :
    existingIds (reconcile L serviceId costs now).ledger serviceId costs =
      costs.map (docIdOf serviceId) := by
  unfold existingIds
  apply List.filter_eq_self.mpr
  intro d hd
  obtain ⟨c, hc, rfl⟩ := List.mem_map.mp hd
  simpa using findDoc_reconcile_isSome L serviceId costs now c hc

theorem keysOf_commit_all_upd (serviceId now : String) (S : List String) :
    ∀ (costs : List CostEntry) (L : Ledger),
    (∀ c ∈ costs, docIdOf serviceId c ∈ S) →
    keysOf (commit L (costs.map (writeFor S serviceId now))) = keysOf L := by
  intro costs
  induction costs with
  | nil => intro L _; rfl
  | cons c0 cs ih =>
      intro L hall
      have h0 : docIdOf serviceId c0 ∈ S := hall c0 (List.mem_cons_self _ _)
      have hstep : commit L ((c0 :: cs).map (writeFor S serviceId now)) =
          commit (applyWrite L (writeFor S serviceId now c0)) (cs.map (writeFor S serviceId now)) := by
        simp [commit]
      rw [hstep, ih _ (fun c hc => hall c (List.mem_cons_of_mem _ hc))]
      simp [writeFor, h0, applyWrite, keysOf_updateDoc]

/-- Sample batch entry used by witnesses: `{aws, 2025-10-01, $12.00}`. -/
def sampleEntry : CostEntry :=
  { serviceId := "aws", timestamp := "2025-10-01T00:00:00.000Z", totalCost := 12,
    currency := "USD", resources := [], metadata := [] }

/-- A second collection run's data for the same day. -/
def sampleEntry2 : CostEntry :=
  { serviceId := "aws", timestamp := "2025-10-01T00:00:00.000Z", totalCost := 13,
    currency := "USD", resources := [], metadata := [] }

/-- A ledger that already holds a record for `aws_2025-10-01`, created at `"T0"`. -/
def ledger0 : Ledger := [("aws_2025-10-01", ⟨sampleEntry, "T0", "T0"⟩)]

/-- C1: running `Reconcile(s, B)` (the deduplicating store step of
`POST /api/costs/collect`) twice in succession produces the same final ledger
state after both runs, and the second run reports `newRecords = 0` and
`updatedRecords = |B|`.  The wall clock is modelled as the explicit `now`
parameter shared by both runs; with differing clock values only the
`updatedAt` field would differ. -/
theorem reconcile_idempotent (L : Ledger) (serviceId : String) (costs : List CostEntry)
    (now : String) (h : (keysOf L).Nodup) :
    (reconcile (reconcile L serviceId costs now).ledger serviceId costs now).ledger =
        (reconcile L serviceId costs now).ledger
    ∧ (reconcile (reconcile L serviceId costs now).ledger serviceId costs now).newRecords = 0
    ∧ (reconcile (reconcile L serviceId costs now).ledger serviceId costs now).updatedRecords =
        costs.length := by
  set L1 := (reconcile L serviceId costs now).ledger with hL1
  have hS2 : existingIds L1 serviceId costs = costs.map (docIdOf serviceId) :=
    existingIds_after_reconcile L serviceId costs now
  have hmem : ∀ c ∈ costs, docIdOf serviceId c ∈ existingIds L1 serviceId costs := by
    intro c hc; rw [hS2]; exact List.mem_map_of_mem _ hc
  refine ⟨?_, ?_, ?_⟩
  · apply ledger_ext
    · show keysOf (commit L1 (costs.map (writeFor (existingIds L1 serviceId costs)
        serviceId now))) = keysOf L1
      exact keysOf_commit_all_upd _ _ _ costs L1 hmem
    · exact nodup_keys_reconcile L serviceId costs now h
    · intro d
      rw [findDoc_reconcile L1 serviceId costs now d]
      cases hlast : lastFor serviceId d costs with
      | none => rfl
      | some c =>
          have hfd1 := findDoc_reconcile L serviceId costs now d
          rw [hlast] at hfd1
          cases hfd : findDoc L d with
          | some old =>
              rw [hfd] at hfd1
              rw [← hL1] at hfd1
              rw [hfd1]
          | none =>
              rw [hfd] at hfd1
              rw [← hL1] at hfd1
              rw [hfd1]
  · show costs.countP
      (fun c => !decide (docIdOf serviceId c ∈ existingIds L1 serviceId costs)) = 0
    apply List.countP_eq_zero.mpr
    intro c hc
    simp [hmem c hc]
  · show costs.countP
      (fun c => decide (docIdOf serviceId c ∈ existingIds L1 serviceId costs)) = costs.length
    apply List.countP_eq_length.mpr
    intro c hc
    simp [hmem c hc]

theorem reconcile_idempotent_witness :
    (keysOf ([] : Ledger)).Nodup ∧
    ((reconcile (reconcile [] "aws" [sampleEntry] "T1").ledger "aws" [sampleEntry] "T1").ledger =
        (reconcile [] "aws" [sampleEntry] "T1").ledger
      ∧ (reconcile (reconcile [] "aws" [sampleEntry] "T1").ledger "aws"
          [sampleEntry] "T1").newRecords = 0
      ∧ (reconcile (reconcile [] "aws" [sampleEntry] "T1").ledger "aws"
          [sampleEntry] "T1").updatedRecords = [sampleEntry].length) :=
  ⟨List.nodup_nil, reconcile_idempotent [] "aws" [sampleEntry] "T1" List.nodup_nil⟩

/-- C7: a reconciliation overwriting an existing record (same composite key)
leaves `createdAt` unchanged and sets `updatedAt` to the write time, while a
first creation sets both to the write time (`c` being the batch entry whose
fields end up stored for key `d`). -/
theorem reconcile_createdAt_stable (L : Ledger) (serviceId : String)
    (costs : List CostEntry) (now d : String) (c : CostEntry)
    (hc : lastFor serviceId d costs = some c) :
    (∀ old, findDoc L d = some old →
        findDoc (reconcile L serviceId costs now).ledger d = some ⟨c, old.createdAt, now⟩)
    ∧ (findDoc L d = none →
        findDoc (reconcile L serviceId costs now).ledger d = some ⟨c, now, now⟩) := by
  constructor
  · intro old hold
    rw [findDoc_reconcile, hc, hold]
  · intro hnone
    rw [findDoc_reconcile, hc, hnone]

theorem reconcile_createdAt_stable_witness :
    lastFor "aws" "aws_2025-10-01" [sampleEntry2] = some sampleEntry2 ∧
    findDoc (reconcile ledger0 "aws" [sampleEntry2] "T1").ledger "aws_2025-10-01" =
      some ⟨sampleEntry2, "T0", "T1"⟩ :=
  ⟨by decide,
   (reconcile_createdAt_stable ledger0 "aws" [sampleEntry2] "T1" "aws_2025-10-01"
      sampleEntry2 (by decide)).1 ⟨sampleEntry, "T0", "T0"⟩ (by decide)⟩

/-! ## The collect handler around the store step -/

/-- One `collection_status` document, overwritten on every collection attempt. -/
structure CollectionStatus where
  serviceId : String
  status : String
  lastRun : String
  costsCollected : Nat
  warning : Option String
  error : Option String
deriving Repr, DecidableEq

abbrev StatusMap := List (String × CollectionStatus)

/-- `collection_status` document set: replace or append, like `setDoc`. -/
def setStatus : StatusMap → String → CollectionStatus → StatusMap
  | [], d, v => [(d, v)]
  | (k, w) :: rest, d, v => if k = d then (k, v) :: rest else (k, w) :: setStatus rest d v

/-- The two Firestore collections the collect handler touches. -/
structure HandlerState where
  costs : Ledger
  statuses : StatusMap
deriving Repr, DecidableEq

/-- What a collector adapter returns on success: `{costs, count, warning?}`. -/
structure AdapterResult where
  costs : List CostEntry
  count : Nat
  warning : Option String
deriving Repr, DecidableEq

/-- The JSON response of `POST /api/costs/collect`: the success summary or the
`500 {error}` object produced by the catch block. -/
inductive HandlerResponse where
  | ok (serviceId : String) (costsCollected newRecords updatedRecords : Nat)
      (timestamp : String) (warning : Option String)
  | err (status : Nat) (message : String)
deriving Repr, DecidableEq

/-- The catch block of the collect handler.  The code attempts
`firestore.collection('collection_status').doc(serviceId).set({status: 'error', ...})`,
but `firestore` and `serviceId` are `const`-declared inside the `try` block and
are therefore not in scope in the catch: evaluating the write raises a
ReferenceError, which the inner try/catch around the write logs and swallows.
The status collection is hence left untouched, and only the
`500 {error: message}` response is produced. -/
def collectCatch (st : HandlerState) (message : String) : HandlerState × HandlerResponse :=
  (st, .err 500 message)

/-- `POST /api/costs/collect` from the adapter call onward: the adapter either
fails (modelled as `Except.error`) or yields a batch; the batched existence
check (`firestore.getAll`) either fails or succeeds; on success the write loop
runs, the batch is committed and a success status is stored. -/
def collectHandler (st : HandlerState) (serviceId : String)
    (adapter : Except String AdapterResult) (readStep : Except String Unit)
    (now : String) : HandlerState × HandlerResponse :=
  match adapter with
  | .error e => collectCatch st e
  | .ok result =>
      match readStep with
      | .error e => collectCatch st e
      | .ok _ =>
          let r := reconcile st.costs serviceId result.costs now
          ({ costs := r.ledger
             statuses := setStatus st.statuses serviceId
               ⟨serviceId, "success", now, result.count, result.warning, none⟩ },
           .ok serviceId result.count r.newRecords r.updatedRecords now result.warning)

/-- One collection attempt, as an element of an arbitrary run sequence. -/
structure CollectReq where
  serviceId : String
  adapter : Except String AdapterResult
  readStep : Except String Unit
  now : String

/-- An arbitrary sequence of collection attempts (any services, any batches,
any failures), applied in order. -/
def runCollects (st : HandlerState) (reqs : List CollectReq) : HandlerState :=
  reqs.foldl (fun s q => (collectHandler s q.serviceId q.adapter q.readStep q.now).1) st

theorem nodup_keys_collectHandler (st : HandlerState) (serviceId : String)
    (adapter : Except String AdapterResult) (readStep : Except String Unit) (now : String)
    (h : (keysOf st.costs).Nodup) :
    (keysOf (collectHandler st serviceId adapter readStep now).1.costs).Nodup := by
  cases adapter with
  | error e => exact h
  | ok result =>
      cases readStep with
      | error e => exact h
      | ok u => exact nodup_keys_reconcile st.costs serviceId result.costs now h

theorem nodup_keys_runCollects (reqs : List CollectReq) :
    ∀ st : HandlerState, (keysOf st.costs).Nodup →
    (keysOf (runCollects st reqs).costs).Nodup := by
  induction reqs with
  | nil => intro st h; exact h
  | cons q qs ih =>
      intro st h
      exact ih _ (nodup_keys_collectHandler st q.serviceId q.adapter q.readStep q.now h)

/-- C2: after any sequence of collection runs (any services, any batches, any
failures), at most one ledger record exists per composite key
`serviceId + "_" + YYYY-MM-DD`, starting from any duplicate-free ledger. -/
theorem ledger_key_unique (st : HandlerState) (h : (keysOf st.costs).Nodup)
    (reqs : List CollectReq) (k : String) :
    (keysOf (runCollects st reqs).costs).count k ≤ 1 :=
  List.nodup_iff_count_le_one.mp (nodup_keys_runCollects reqs st h) k

theorem ledger_key_unique_witness :
    (keysOf (⟨[], []⟩ : HandlerState).costs).Nodup ∧
    (keysOf (runCollects ⟨[], []⟩
        [⟨"aws", Except.ok ⟨[sampleEntry, sampleEntry2], 2, none⟩, Except.ok (), "T1"⟩,
         ⟨"aws", Except.ok ⟨[sampleEntry], 1, none⟩, Except.ok (), "T2"⟩]).costs).count
      "aws_2025-10-01" ≤ 1 :=
  ⟨List.nodup_nil,
   ledger_key_unique ⟨[], []⟩ List.nodup_nil
     [⟨"aws", Except.ok ⟨[sampleEntry, sampleEntry2], 2, none⟩, Except.ok (), "T1"⟩,
      ⟨"aws", Except.ok ⟨[sampleEntry], 1, none⟩, Except.ok (), "T2"⟩] "aws_2025-10-01"⟩

/-- C3 (failing input): on a collection failure the handler returns the
structured `500 {error}` object, but — because the catch block's references to
`firestore` and `serviceId` are out of scope and raise a swallowed
ReferenceError — the state, including the `collection_status` collection, is
left completely unchanged: no `status = 'error'` document is recorded. -/
theorem collect_failure_records_no_status (st : HandlerState) (serviceId msg : String)
    (readStep : Except String Unit) (now : String) :
    (collectHandler st serviceId (Except.error msg) readStep now).1 = st
    ∧ (collectHandler st serviceId (Except.error msg) readStep now).2 =
        HandlerResponse.err 500 msg :=
  ⟨rfl, rfl⟩

/-- C8: if the batched existence-check read (`firestore.getAll`) fails, the
handler aborts before creating the write batch: the final state equals the
initial state — in particular no partial ledger mutation — and the caller
receives the structured error. -/
theorem read_failure_aborts_before_write (st : HandlerState) (serviceId : String)
    (result : AdapterResult) (msg now : String) :
    (collectHandler st serviceId (Except.ok result) (Except.error msg) now).1.costs = st.costs
    ∧ (collectHandler st serviceId (Except.ok result) (Except.error msg) now).1 = st
    ∧ (collectHandler st serviceId (Except.ok result) (Except.error msg) now).2 =
        HandlerResponse.err 500 msg :=
  ⟨rfl, rfl, rfl⟩

/-- A malformed batch entry: negative `totalCost` and a negative resource cost. -/
def invalidEntry : CostEntry :=
  { serviceId := "aws", timestamp := "2025-10-03T00:00:00.000Z", totalCost := -5,
    currency := "USD",
    resources := [⟨some "r1", "res one", "AWS Service", -2, []⟩], metadata := [] }

/-- C5 (counterexample): the write loop performs no validation before key
derivation — an entry with negative `totalCost` (and a negative resource cost)
is written to the ledger exactly like a valid one, contradicting the claim
that invalid entries are never written. -/
theorem invalid_entry_is_written :
    invalidEntry.totalCost < 0
    ∧ findDoc (reconcile [] "aws" [invalidEntry] "T1").ledger "aws_2025-10-03" =
        some ⟨invalidEntry, "T1", "T1"⟩ :=
  ⟨by norm_num [invalidEntry], by decide⟩

/-- C5 (amended): the reconciliation path validates nothing — every entry of
the batch, well-formed or not, has its key derived and is written to the
ledger, and the two counters always sum to the full batch size (there is no
skipped-entries report). -/
theorem reconcile_writes_every_entry (L : Ledger) (serviceId : String)
    (costs : List CostEntry) (now : String) :
    (reconcile L serviceId costs now).newRecords +
        (reconcile L serviceId costs now).updatedRecords = costs.length
    ∧ ∀ c ∈ costs,
        (findDoc (reconcile L serviceId costs now).ledger (docIdOf serviceId c)).isSome := by
  constructor
  · show costs.countP _ + costs.countP _ = costs.length
    have hfun : (fun a => decide ¬ decide (docIdOf serviceId a ∈ existingIds L serviceId costs) = true)
        = (fun c => !decide (docIdOf serviceId c ∈ existingIds L serviceId costs)) := by
      funext a
      by_cases hx : docIdOf serviceId a ∈ existingIds L serviceId costs <;> simp [hx]
    rw [Nat.add_comm, ← hfun]
    exact (List.length_eq_countP_add_countP
      (fun c => decide (docIdOf serviceId c ∈ existingIds L serviceId costs)) costs).symm
  · intro c hc
    exact findDoc_reconcile_isSome L serviceId costs now c hc

theorem reconcile_writes_every_entry_witness :
    (reconcile [] "aws" [invalidEntry] "T1").newRecords +
        (reconcile [] "aws" [invalidEntry] "T1").updatedRecords = [invalidEntry].length
    ∧ invalidEntry ∈ [invalidEntry]
    ∧ (findDoc (reconcile [] "aws" [invalidEntry] "T1").ledger
        (docIdOf "aws" invalidEntry)).isSome :=
  ⟨(reconcile_writes_every_entry [] "aws" [invalidEntry] "T1").1,
   List.mem_singleton_self _,
   (reconcile_writes_every_entry [] "aws" [invalidEntry] "T1").2 invalidEntry
     (List.mem_singleton_self _)⟩

/-! ## Anomaly detector (`GET /api/costs/anomalies`, per-service body) -/

/-- One grouped row fed to the detector:
`{timestamp, totalCost: data.totalCost || 0, resources: data.resources || []}`. -/
structure CostRow where
  timestamp : String
  totalCost : ℚ
  resources : List ResourceCost
deriving Repr, DecidableEq

/-- An emitted anomaly object.  `etype` is the JS field `type`; the resource
fields are `none` on `cost_spike` events, where the JS object omits them.
`percentChange` holds the raw value (the code formats it with `.toFixed(2)`
when emitting; the comparison and the severity use the raw value). -/
structure AnomalyEvent where
  serviceId : String
  etype : String
  severity : String
  currentCost : ℚ
  averageCost : ℚ
  percentChange : ℚ
  timestamp : String
  resourceId : Option String
  resourceName : Option String
  resourceType : Option String
deriving Repr, DecidableEq

/-- `resource.resourceId || resource.name`: both a missing `resourceId` and an
empty string are JS-falsy and fall back to the name. -/
def resKey (r : ResourceCost) : String :=
  match r.resourceId with
  | some s => if s = "" then r.name else s
  | none => r.name

/-- Lexicographic comparison of character lists by code point. -/
def charsLe : List Char → List Char → Bool
  | [], _ => true
  | _ :: _, [] => false
  | c :: cs, d :: ds =>
      if c.toNat < d.toNat then true
      else if d.toNat < c.toNat then false
      else charsLe cs ds

/-- The comparator `new Date(a.timestamp) - new Date(b.timestamp) ≤ 0`:
chronological order of ISO-8601 timestamps coincides with lexicographic order
of their strings. -/
def chronoLe (a b : String) : Bool := charsLe a.data b.data

/-- Stable insertion of a row after all rows of smaller-or-equal timestamp. -/
def insertRow (r : CostRow) : List CostRow → List CostRow
  | [] => [r]
  | x :: xs => if chronoLe x.timestamp r.timestamp then x :: insertRow r xs else r :: x :: xs

/-- `costs.sort((a, b) => new Date(a.timestamp) - new Date(b.timestamp))`:
stable ascending sort; ISO-8601 timestamps compare chronologically as strings. -/
def sortRows (rows : List CostRow) : List CostRow :=
  rows.foldl (fun acc r => insertRow r acc) []

/-- `costs.slice(-8, -1)` — the up-to-7 entries before the most recent one.
JS clamps the start index at 0, which `Nat` subtraction mirrors: a 7-entry
window yields only its first 6 entries as baseline. -/
def baselineOf (costs : List CostRow) : List CostRow :=
  (costs.drop (costs.length - 8)).dropLast

/-- `recentCosts.reduce((sum, c) => sum + c.totalCost, 0)`. -/
def sumCosts (rows : List CostRow) : ℚ := rows.foldl (fun s c => s + c.totalCost) 0

/-- The baseline mean `avgCost`. -/
def avgCostOf (costs : List CostRow) : ℚ :=
  sumCosts (baselineOf costs) / ((baselineOf costs).length : ℚ)

/-- `avgCost > 0 ? ((todayCost - avgCost) / avgCost) * 100 : 0`. -/
def percentChangeOf (avgCost todayCost : ℚ) : ℚ :=
  if avgCost > 0 then (todayCost - avgCost) / avgCost * 100 else 0

/-- One bucket of `avgResourceCosts`: `{total, count, name, type}`. -/
structure ResourceAgg where
  total : ℚ
  count : Nat
  name : String
  rtype : String
deriving Repr, DecidableEq

/-- Lookup in the `avgResourceCosts` object. -/
def findAgg : List (String × ResourceAgg) → String → Option ResourceAgg
  | [], _ => none
  | (k, v) :: rest, d => if k = d then some v else findAgg rest d

/-- In-place modification of one bucket. -/
def updateAgg (f : ResourceAgg → ResourceAgg) :
    List (String × ResourceAgg) → String → List (String × ResourceAgg)
  | [], _ => []
  | (k, v) :: rest, d => if k = d then (k, f v) :: rest else (k, v) :: updateAgg f rest d

/-- `if (!avgResourceCosts[key]) avgResourceCosts[key] = {total: 0, count: 0, name, type};
avgResourceCosts[key].total += resource.cost || 0; avgResourceCosts[key].count += 1;`
— creating a bucket and immediately accumulating gives `{total: cost, count: 1}`. -/
def bumpAgg (m : List (String × ResourceAgg)) (r : ResourceCost) :
    List (String × ResourceAgg) :=
  match findAgg m (resKey r) with
  | some _ =>
      updateAgg (fun a => { a with total := a.total + r.cost, count := a.count + 1 }) m (resKey r)
  | none => m ++ [(resKey r, ⟨r.cost, 1, r.name, r.rtype⟩)]

/-- The per-resource baseline pass over `recentCosts`. -/
def buildAvgResourceCosts (recent : List CostRow) : List (String × ResourceAgg) :=
  recent.foldl (fun m c => c.resources.foldl bumpAgg m) []

/-- The body of `todayResources.forEach(...)` for one resource of today's row:
emits a `resource_spike` event when the bucket exists with `count > 0` and the
percent change against the bucket average strictly exceeds the threshold. -/
def resourceEventFor (svcId : String) (thresholdPercent : ℚ)
    (avgMap : List (String × ResourceAgg)) (ts : String) (r : ResourceCost) :
    Option AnomalyEvent :=
  match findAgg avgMap (resKey r) with
  | none => none
  | some avgData =>
      if avgData.count > 0 then
        let avgResourceCost := avgData.total / (avgData.count : ℚ)
        let pc := percentChangeOf avgResourceCost r.cost
        if pc > thresholdPercent then
          some ⟨svcId, "resource_spike", if pc > 100 then "high" else "medium",
                r.cost, avgResourceCost, pc, ts, some (resKey r), some r.name, some r.rtype⟩
        else none
      else none

/-- The per-service detector body, after sorting: guard `costs.length < 7`,
7-day (up to clamping) baseline average, service-level `cost_spike`, then the
resource-level pass.  `todayRow` is `costs[costs.length - 1]`, which exists in
the guarded branch; the `getD` default is unreachable. -/
def detectBody (svcId : String) (thresholdPercent : ℚ) (costs : List CostRow) :
    List AnomalyEvent :=
  if costs.length < 7 then []
  else
    let recentCosts := baselineOf costs
    let avgCost := sumCosts recentCosts / (recentCosts.length : ℚ)
    let todayRow := (costs.getLast?).getD ⟨"", 0, []⟩
    let percentChange := percentChangeOf avgCost todayRow.totalCost
    let serviceEvents :=
      if percentChange > thresholdPercent then
        [⟨svcId, "cost_spike", if percentChange > 100 then "high" else "medium",
          todayRow.totalCost, avgCost, percentChange, todayRow.timestamp, none, none, none⟩]
      else []
    let avgMap := buildAvgResourceCosts recentCosts
    serviceEvents ++ todayRow.resources.filterMap
      (resourceEventFor svcId thresholdPercent avgMap todayRow.timestamp)

/-- `DetectAnomalies` for one service: sort the grouped rows ascending by
timestamp, then run the detector body. -/
def detectService (svcId : String) (thresholdPercent : ℚ) (rows : List CostRow) :
    List AnomalyEvent :=
  detectBody svcId thresholdPercent (sortRows rows)

theorem insertRow_length (r : CostRow) (l : List CostRow) :
    (insertRow r l).length = l.length + 1 := by
  induction l with
  | nil => rfl
  | cons x xs ih =>
      cases h : chronoLe x.timestamp r.timestamp
      · simp [insertRow, h]
      · simp [insertRow, h, ih]

theorem sortRows_length (rows : List CostRow) : (sortRows rows).length = rows.length := by
  suffices h : ∀ acc : List CostRow,
      (rows.foldl (fun acc r => insertRow r acc) acc).length = acc.length + rows.length by
    simpa using h []
  induction rows with
  | nil => intro acc; simp
  | cons x xs ih =>
      intro acc
      simp only [List.foldl_cons, ih, insertRow_length, List.length_cons]
      omega

/-- Row constructor for test windows (no resources). -/
def mkRow (ts : String) (c : ℚ) : CostRow := ⟨ts, c, []⟩

/-- A 7-entry window: 6 prior days of cost 1, most recent day cost 100. -/
def window7 : List CostRow :=
  [mkRow "2025-10-01T00:00:00.000Z" 1, mkRow "2025-10-02T00:00:00.000Z" 1,
   mkRow "2025-10-03T00:00:00.000Z" 1, mkRow "2025-10-04T00:00:00.000Z" 1,
   mkRow "2025-10-05T00:00:00.000Z" 1, mkRow "2025-10-06T00:00:00.000Z" 1,
   mkRow "2025-10-07T00:00:00.000Z" 100]

theorem sortRows_window7 : sortRows window7 = window7 := rfl

/-- C4 (counterexample): a 7-entry window has only 6 days of history prior to
its most recent entry, yet the detector still emits events for it — the guard
is `costs.length < 7`, so with exactly 7 entries the baseline `slice(-8, -1)`
silently degrades to 6 entries instead of returning an empty result. -/
theorem seven_entry_window_emits :
    window7.length = 7
    ∧ detectService "gcp" 50 window7 =
        [⟨"gcp", "cost_spike", "high", 100, 1, 9900, "2025-10-07T00:00:00.000Z",
          none, none, none⟩] := by
  refine ⟨rfl, ?_⟩
  unfold detectService
  rw [sortRows_window7]
  norm_num [detectBody, baselineOf, sumCosts, percentChangeOf, buildAvgResourceCosts,
    window7, mkRow]

/-- C4 (amended): the detector returns an empty event list exactly when the
window has fewer than 7 entries in total (i.e. fewer than 6 prior days); with
7 or more entries it proceeds, using as baseline the up-to-7 entries before
the most recent one (6 when the window has exactly 7 entries). -/
theorem detect_empty_below_seven_entries (svcId : String) (th : ℚ) (rows : List CostRow)
    (h : rows.length < 7) : detectService svcId th rows = [] := by
  have hc : (sortRows rows).length < 7 := by rwa [sortRows_length]
  unfold detectService detectBody
  rw [if_pos hc]

theorem detect_empty_below_seven_entries_witness :
    (window7.take 3).length < 7 ∧ detectService "gcp" 50 (window7.take 3) = [] :=
  ⟨by decide, detect_empty_below_seven_entries "gcp" 50 (window7.take 3) (by decide)⟩

/-- An 8-entry window with baseline average cost 10 and a parameterized most
recent day. -/
def boundaryWindow (todayCost : ℚ) : List CostRow :=
  [mkRow "2025-09-24T00:00:00.000Z" 10, mkRow "2025-09-25T00:00:00.000Z" 10,
   mkRow "2025-09-26T00:00:00.000Z" 10, mkRow "2025-09-27T00:00:00.000Z" 10,
   mkRow "2025-09-28T00:00:00.000Z" 10, mkRow "2025-09-29T00:00:00.000Z" 10,
   mkRow "2025-09-30T00:00:00.000Z" 10, mkRow "2025-10-01T00:00:00.000Z" todayCost]

theorem sortRows_boundaryWindow (t : ℚ) :
    sortRows (boundaryWindow t) = boundaryWindow t := rfl

/-- C6: the threshold comparison is strictly greater-than.  With baseline
average 10 at `thresholdPercent = 50`: today's cost exactly 15 (50% increase)
fires nothing; 15.01 fires a `cost_spike` with severity `medium`
(percent change 50.1); 20.01 fires with severity `high` (percent change
100.1 > 100). -/
theorem threshold_boundary :
    detectService "aws" 50 (boundaryWindow 15) = []
    ∧ detectService "aws" 50 (boundaryWindow 15.01) =
        [⟨"aws", "cost_spike", "medium", 15.01, 10, 50.1, "2025-10-01T00:00:00.000Z",
          none, none, none⟩]
    ∧ detectService "aws" 50 (boundaryWindow 20.01) =
        [⟨"aws", "cost_spike", "high", 20.01, 10, 100.1, "2025-10-01T00:00:00.000Z",
          none, none, none⟩] := by
  refine ⟨?_, ?_, ?_⟩ <;>
  · unfold detectService
    rw [sortRows_boundaryWindow]
    norm_num [detectBody, baselineOf, sumCosts, percentChangeOf, buildAvgResourceCosts,
      boundaryWindow, mkRow]

theorem resourceEventFor_inv (svcId : String) (th : ℚ) (m : List (String × ResourceAgg))
    (ts : String) (r : ResourceCost) (ev : AnomalyEvent)
    (h : resourceEventFor svcId th m ts r = some ev) :
    ev.etype = "resource_spike" ∧ ev.resourceId = some (resKey r) ∧
    ∃ a, findAgg m (resKey r) = some a ∧ 0 < a.count ∧
      percentChangeOf (a.total / (a.count : ℚ)) r.cost > th := by
  simp only [resourceEventFor] at h
  split at h
  · exact absurd h (by simp)
  · next a heq =>
      split at h
      · split at h
        · next hgt =>
            injection h with h2
            subst h2
            exact ⟨rfl, rfl, a, heq, by assumption, hgt⟩
        · exact absurd h (by simp)
      · exact absurd h (by simp)

theorem findAgg_updateAgg_ne (f : ResourceAgg → ResourceAgg)
    (m : List (String × ResourceAgg)) (d e : String) (h : e ≠ d) :
    findAgg (updateAgg f m d) e = findAgg m e := by
  induction m with
  | nil => simp [updateAgg]
  | cons p rest ih =>
      obtain ⟨k, w⟩ := p
      by_cases hk : k = d
      · subst hk
        simp only [updateAgg, if_pos rfl, findAgg]
        rw [if_neg (fun hh => h hh.symm), if_neg (fun hh => h hh.symm)]
      · simp [updateAgg, findAgg, hk, ih]

theorem findAgg_append (m l : List (String × ResourceAgg)) (k : String) :
    findAgg (m ++ l) k =
      match findAgg m k with
      | some v => some v
      | none => findAgg l k := by
  induction m with
  | nil => simp [findAgg]
  | cons p rest ih =>
      obtain ⟨k0, v0⟩ := p
      by_cases hk : k0 = k
      · simp [findAgg, hk]
      · simp [findAgg, hk, ih]

theorem findAgg_bumpAgg_ne (m : List (String × ResourceAgg)) (r : ResourceCost)
    (k : String) (h : resKey r ≠ k) :
    findAgg (bumpAgg m r) k = findAgg m k := by
  unfold bumpAgg
  cases hf : findAgg m (resKey r) with
  | some a => exact findAgg_updateAgg_ne _ _ _ _ (fun hh => h hh.symm)
  | none =>
      rw [findAgg_append]
      cases hfk : findAgg m k with
      | some v => rfl
      | none => simp [findAgg, h]

theorem findAgg_resources_foldl_absent (k : String) :
    ∀ rs : List ResourceCost, (∀ r ∈ rs, resKey r ≠ k) →
    ∀ m, findAgg (rs.foldl bumpAgg m) k = findAgg m k := by
  intro rs
  induction rs with
  | nil => intro _ m; rfl
  | cons r rs ih =>
      intro habs m
      rw [List.foldl_cons, ih (fun x hx => habs x (List.mem_cons_of_mem _ hx)) (bumpAgg m r)]
      exact findAgg_bumpAgg_ne m r k (habs r (List.mem_cons_self _ _))

theorem findAgg_buildAvg_absent (k : String) (recent : List CostRow)
    (habs : ∀ row ∈ recent, ∀ r ∈ row.resources, resKey r ≠ k) :
    findAgg (buildAvgResourceCosts recent) k = none := by
  suffices haux : ∀ (rows : List CostRow) (m : List (String × ResourceAgg)),
      (∀ row ∈ rows, ∀ r ∈ row.resources, resKey r ≠ k) →
      findAgg (rows.foldl (fun m c => c.resources.foldl bumpAgg m) m) k = findAgg m k by
    rw [buildAvgResourceCosts, haux recent [] habs]; rfl
  intro rows
  induction rows with
  | nil => intro m _; rfl
  | cons row rows ih =>
      intro m hall
      rw [List.foldl_cons, ih _ (fun x hx => hall x (List.mem_cons_of_mem _ hx)),
          findAgg_resources_foldl_absent k row.resources (hall row (List.mem_cons_self _ _)) m]

/-- Any event emitted by the detector body is either the service-level
`cost_spike` (emitted only when the percent change strictly exceeds the
threshold) or comes from the resource pass over today's resources. -/
theorem mem_detectBody_cases (svcId : String) (th : ℚ) (costs : List CostRow)
    (ev : AnomalyEvent) (h : ev ∈ detectBody svcId th costs) :
    (percentChangeOf (sumCosts (baselineOf costs) / ((baselineOf costs).length : ℚ))
        ((costs.getLast?).getD ⟨"", 0, []⟩).totalCost > th
      ∧ ev.etype = "cost_spike" ∧ ev.resourceId = none)
    ∨ ∃ r ∈ ((costs.getLast?).getD ⟨"", 0, []⟩).resources,
        resourceEventFor svcId th (buildAvgResourceCosts (baselineOf costs))
          ((costs.getLast?).getD ⟨"", 0, []⟩).timestamp r = some ev := by
  by_cases hlen : costs.length < 7
  · simp [detectBody, if_pos hlen] at h
  · simp only [detectBody, if_neg hlen] at h
    rcases List.mem_append.mp h with h1 | h2
    · by_cases hpc : percentChangeOf
          (sumCosts (baselineOf costs) / ((baselineOf costs).length : ℚ))
          ((costs.getLast?).getD ⟨"", 0, []⟩).totalCost > th
      · rw [if_pos hpc] at h1
        simp only [List.mem_singleton] at h1
        subst h1
        exact Or.inl ⟨hpc, rfl, rfl⟩
      · rw [if_neg hpc] at h1
        exact absurd h1 (List.not_mem_nil ev)
    · exact Or.inr (List.mem_filterMap.mp h2)

/-- C9: a zero baseline average is guarded (`avgCost > 0 ? ... : 0`), so the
percent change is defined as 0 rather than a division by zero, and no
`cost_spike` fires for the service; likewise a resource whose baseline bucket
average is 0 fires no `resource_spike` (threshold taken non-negative, as a
percentage). -/
theorem zero_baseline_safe (svcId : String) (th : ℚ) (rows : List CostRow) (hth : 0 ≤ th) :
    (avgCostOf (sortRows rows) = 0 →
        percentChangeOf (avgCostOf (sortRows rows))
            (((sortRows rows).getLast?).getD ⟨"", 0, []⟩).totalCost = 0
        ∧ ∀ ev ∈ detectService svcId th rows, ev.etype ≠ "cost_spike")
    ∧ (∀ k a, findAgg (buildAvgResourceCosts (baselineOf (sortRows rows))) k = some a →
        a.total / (a.count : ℚ) = 0 →
        ∀ ev ∈ detectService svcId th rows, ev.resourceId ≠ some k) := by
  constructor
  · intro havg
    refine ⟨by rw [havg]; simp [percentChangeOf], ?_⟩
    intro ev hev
    unfold detectService at hev
    rcases mem_detectBody_cases svcId th (sortRows rows) ev hev with ⟨hpc, _, _⟩ | ⟨r, _, heq⟩
    · exfalso
      rw [show sumCosts (baselineOf (sortRows rows)) /
            ((baselineOf (sortRows rows)).length : ℚ) = avgCostOf (sortRows rows) from rfl,
          havg] at hpc
      simp only [percentChangeOf, lt_irrefl, if_neg (lt_irrefl 0)] at hpc
      exact absurd hpc (not_lt.mpr hth)
    · obtain ⟨het, _, _⟩ := resourceEventFor_inv _ _ _ _ _ _ heq
      rw [het]
      simp
  · intro k a hfind havg0 ev hev
    unfold detectService at hev
    rcases mem_detectBody_cases svcId th (sortRows rows) ev hev with ⟨_, _, hrid⟩ | ⟨r, _, heq⟩
    · rw [hrid]; simp
    · obtain ⟨_, hrid, a2, hfind2, _, hgt⟩ := resourceEventFor_inv _ _ _ _ _ _ heq
      rw [hrid]
      intro hkk
      have hk : resKey r = k := Option.some.inj hkk
      rw [hk, hfind] at hfind2
      have ha : a2 = a := Option.some.inj hfind2.symm
      rw [ha, havg0] at hgt
      simp only [percentChangeOf, if_neg (lt_irrefl 0)] at hgt
      exact absurd hgt (not_lt.mpr hth)

/-- Baseline: 7 days of zero total cost, each listing resource `r1` at cost 1;
today: total cost 5 with `r1` at cost 10. -/
def zeroBaselineWindow : List CostRow :=
  [⟨"2025-09-24T00:00:00.000Z", 0, [⟨some "r1", "resource one", "svc", 1, []⟩]⟩,
   ⟨"2025-09-25T00:00:00.000Z", 0, [⟨some "r1", "resource one", "svc", 1, []⟩]⟩,
   ⟨"2025-09-26T00:00:00.000Z", 0, [⟨some "r1", "resource one", "svc", 1, []⟩]⟩,
   ⟨"2025-09-27T00:00:00.000Z", 0, [⟨some "r1", "resource one", "svc", 1, []⟩]⟩,
   ⟨"2025-09-28T00:00:00.000Z", 0, [⟨some "r1", "resource one", "svc", 1, []⟩]⟩,
   ⟨"2025-09-29T00:00:00.000Z", 0, [⟨some "r1", "resource one", "svc", 1, []⟩]⟩,
   ⟨"2025-09-30T00:00:00.000Z", 0, [⟨some "r1", "resource one", "svc", 1, []⟩]⟩,
   ⟨"2025-10-01T00:00:00.000Z", 5, [⟨some "r1", "resource one", "svc", 10, []⟩]⟩]

theorem sortRows_zeroBaselineWindow : sortRows zeroBaselineWindow = zeroBaselineWindow := rfl

theorem avg_zeroBaselineWindow : avgCostOf (sortRows zeroBaselineWindow) = 0 := by
  rw [sortRows_zeroBaselineWindow]
  norm_num [avgCostOf, baselineOf, sumCosts, zeroBaselineWindow]

theorem detect_zeroBaselineWindow :
    detectService "aws" 50 zeroBaselineWindow =
      [⟨"aws", "resource_spike", "high", 10, 1, 900, "2025-10-01T00:00:00.000Z",
        some "r1", some "resource one", some "svc"⟩] := by
  unfold detectService
  rw [sortRows_zeroBaselineWindow]
  norm_num [detectBody, baselineOf, sumCosts, percentChangeOf, buildAvgResourceCosts,
    bumpAgg, findAgg, updateAgg, resKey, resourceEventFor, zeroBaselineWindow,
    List.filterMap_cons, show ("r1" : String) ≠ "" by decide]

theorem zero_baseline_safe_witness :
    (0 : ℚ) ≤ 50
    ∧ avgCostOf (sortRows zeroBaselineWindow) = 0
    ∧ (⟨"aws", "resource_spike", "high", 10, 1, 900, "2025-10-01T00:00:00.000Z",
        some "r1", some "resource one", some "svc"⟩ : AnomalyEvent).etype ≠ "cost_spike" :=
  ⟨by norm_num, avg_zeroBaselineWindow,
   ((zero_baseline_safe "aws" 50 zeroBaselineWindow (by norm_num)).1
      avg_zeroBaselineWindow).2 _
     (by rw [detect_zeroBaselineWindow]; exact List.mem_singleton_self _)⟩

/-- C10: a resource present in today's entry but absent from every baseline
entry has no bucket in `avgResourceCosts`, so the `avgData && avgData.count > 0`
guard fails and no `resource_spike` event for it can be emitted, whatever its
cost and the threshold. -/
theorem new_resource_never_fires (svcId : String) (th : ℚ) (rows : List CostRow) (k : String)
    (habs : ∀ row ∈ baselineOf (sortRows rows), ∀ r ∈ row.resources, resKey r ≠ k) :
    ∀ ev ∈ detectService svcId th rows, ev.resourceId ≠ some k := by
  intro ev hev
  unfold detectService at hev
  rcases mem_detectBody_cases svcId th (sortRows rows) ev hev with ⟨_, _, hrid⟩ | ⟨r, _, heq⟩
  · rw [hrid]; simp
  · obtain ⟨_, hrid, a, hfind, _, _⟩ := resourceEventFor_inv _ _ _ _ _ _ heq
    rw [hrid]
    intro hkk
    rw [Option.some.inj hkk, findAgg_buildAvg_absent k _ habs] at hfind
    exact absurd hfind (by simp)

/-- Baseline: 7 days of cost 1 with no resources; today: cost 100 carrying the
brand-new resource `new1`. -/
def newResourceWindow : List CostRow :=
  [mkRow "2025-09-24T00:00:00.000Z" 1, mkRow "2025-09-25T00:00:00.000Z" 1,
   mkRow "2025-09-26T00:00:00.000Z" 1, mkRow "2025-09-27T00:00:00.000Z" 1,
   mkRow "2025-09-28T00:00:00.000Z" 1, mkRow "2025-09-29T00:00:00.000Z" 1,
   mkRow "2025-09-30T00:00:00.000Z" 1,
   ⟨"2025-10-01T00:00:00.000Z", 100, [⟨some "new1", "brand new", "svc", 100, []⟩]⟩]

theorem sortRows_newResourceWindow : sortRows newResourceWindow = newResourceWindow := rfl

theorem detect_newResourceWindow :
    detectService "aws" 50 newResourceWindow =
      [⟨"aws", "cost_spike", "high", 100, 1, 9900, "2025-10-01T00:00:00.000Z",
        none, none, none⟩] := by
  unfold detectService
  rw [sortRows_newResourceWindow]
  norm_num [detectBody, baselineOf, sumCosts, percentChangeOf, buildAvgResourceCosts,
    bumpAgg, findAgg, updateAgg, resKey, resourceEventFor, newResourceWindow, mkRow,
    List.filterMap_cons, show ("new1" : String) ≠ "" by decide]

theorem new_resource_never_fires_witness :
    (⟨"aws", "cost_spike", "high", 100, 1, 9900, "2025-10-01T00:00:00.000Z",
      none, none, none⟩ : AnomalyEvent).resourceId ≠ some "new1" :=
  new_resource_never_fires "aws" 50 newResourceWindow "new1" (by decide) _
    (by rw [detect_newResourceWindow]; exact List.mem_singleton_self _)

end BillingManager
